import Mathlib

/-!
Verification of the process-list state machine of `src/main.rs`
(`process_killer`, an interactive terminal process manager).

The Rust `App` struct and its methods are shallowly embedded below.
External effects are made explicit:
 - the OS process table (`sysinfo::System::new_all().processes()`) is an
   explicit `List Entry` argument wherever the source constructs a fresh
   `System` (once per `System::new_all()` call);
 - methods that can panic in Rust (`unwrap` on `None`, out-of-bounds
   indexing, `usize` subtraction overflow in debug builds) return
   `Option App`, with `none` standing for the panic.

String comparison and substring search are embedded at the level of
`List Char` (code points), which for valid UTF-8 agrees with Rust's
byte-wise `Ord for str` and `str::contains`.
-/

namespace ProcessKiller

/-- Strict lexicographic order on char lists: the embedding of Rust's
`Ord for str` (`a.1.cmp(&b.1)` yields `Less` iff this returns `true`). -/
def strLtB : List Char → List Char → Bool
  | _, [] => false
  | [], _ :: _ => true
  | a :: as, b :: bs =>
    if a < b then true
    else if b < a then false
    else strLtB as bs

/-- Non-strict lexicographic order: `cmp` yields `Less` or `Equal`. -/
def strLeB (s t : List Char) : Bool := !(strLtB t s)

/-- Does `pat` occur at the very start of `s`?  (Helper for the embedding
of Rust's `str::contains`.) -/
def strStartsAux : List Char → List Char → Bool
  | [], _ => true
  | _ :: _, [] => false
  | a :: pa, b :: sb => a == b && strStartsAux pa sb

/-- Does `pat` occur contiguously anywhere inside `s`? -/
def strFindAux (pat : List Char) : List Char → Bool
  | [] => pat.isEmpty
  | c :: tl => strStartsAux pat (c :: tl) || strFindAux pat tl

/-- Embedding of Rust's `hay.contains(pat)` (substring test). -/
def strContains (hay pat : String) : Bool := strFindAux pat.data hay.data

/-- `sysinfo::Pid`, modelled as a natural number. -/
abbrev Pid := Nat

/-- One element of `App.processes`: a `(Pid, String)` pair, exactly as in
the source (`Vec<(Pid, String)>`). -/
abbrev Entry := Pid × String

/-- The `SortByNameOptions` enum of the source. -/
inductive SortByNameOptions
  | ASC
  | DESC
  | NONE
  deriving DecidableEq

/-- The `InputMode` enum of the source. -/
inductive InputMode
  | NORMAL
  | EDITING
  deriving DecidableEq

/-- The `App` struct.  `tui::TableState` is represented by the only piece
of it the program reads, `selected() : Option usize`. -/
structure App where
  state : Option Nat
  processes : List Entry
  sort_by_name_option : SortByNameOptions
  search_input : String
  input_mode : InputMode
  deriving DecidableEq

/-- `a` may precede `b` in the ascending sort
(`sort_by(|a, b| a.1.cmp(&b.1))`): `a`'s name is at most `b`'s name. -/
def nameLe (a b : Entry) : Prop := strLeB a.2.data b.2.data = true

/-- `a` may precede `b` in the descending sort
(`sort_by(|a, b| b.1.cmp(&a.1))`): `b`'s name is at most `a`'s name. -/
def nameGe (a b : Entry) : Prop := strLeB b.2.data a.2.data = true

instance : DecidableRel nameLe :=
  fun a b => inferInstanceAs (Decidable (strLeB a.2.data b.2.data = true))

instance : DecidableRel nameGe :=
  fun a b => inferInstanceAs (Decidable (strLeB b.2.data a.2.data = true))

/-- Rust's `Vec::sort_by` is a stable sort; with the comparator
`|a, b| a.1.cmp(&b.1)` its result is the unique stable ascending
reordering, which insertion sort with the non-strict `nameLe` computes. -/
def sortAsc (l : List Entry) : List Entry := List.insertionSort nameLe l

/-- Stable sort with the reversed comparator `|a, b| b.1.cmp(&a.1)`. -/
def sortDesc (l : List Entry) : List Entry := List.insertionSort nameGe l

/-- `App::new`: pushes every `(pid, name)` of a fresh snapshot, then
`processes.sort_by(|a, b| a.1.cmp(&b.1))`; `TableState::default()` has no
selection; `sort_by_name_option` starts at `NONE`. -/
def App.new (snapshot : List Entry) : App :=
  { state := none
    processes := sortAsc (List.foldl (fun r p => r ++ [p]) [] snapshot)
    sort_by_name_option := SortByNameOptions.NONE
    search_input := ""
    input_mode := InputMode.NORMAL }

/-- `App::switch_sort`: first cycles the mode
(`ASC → DESC`, `DESC → ASC`, `NONE → ASC`), then re-sorts `processes`
according to the new mode. -/
def App.switch_sort (a : App) : App :=
  let newMode :=
    match a.sort_by_name_option with
    | SortByNameOptions.ASC => SortByNameOptions.DESC
    | SortByNameOptions.DESC => SortByNameOptions.ASC
    | SortByNameOptions.NONE => SortByNameOptions.ASC
  let newProcs :=
    match newMode with
    | SortByNameOptions.ASC => sortAsc a.processes
    | SortByNameOptions.DESC => sortDesc a.processes
    | SortByNameOptions.NONE => a.processes
  { a with sort_by_name_option := newMode, processes := newProcs }

/-- `App::next`: with no selection picks `0`; with selection `i` picks
`0` when `i >= processes.len()` and `i + 1` otherwise. -/
def App.next (a : App) : App :=
  let i : Nat :=
    match a.state with
    | some i => if a.processes.length ≤ i then 0 else i + 1
    | none => 0
  { a with state := some i }

/-- `App::prev`: with no selection picks `0`; with selection `i` picks
`i - 1` when `i > 0`, and `processes.len() - 1` when `i == 0`.  The
subtraction `len - 1` is on `usize`: on an empty list it overflows, which
panics in debug builds — modelled by `none`. -/
def App.prev (a : App) : Option App :=
  match a.state with
  | some i =>
    if i = 0 then
      match a.processes.length with
      | 0 => none
      | n + 1 => some { a with state := some n }
    else some { a with state := some (i - 1) }
  | none => some { a with state := some 0 }

/-- `App::refetch_process`: clears `processes` and pushes every
`(pid, name)` of a fresh snapshot, in the snapshot's iteration order.
No sorting happens here. -/
def App.refetch_process (snapshot : List Entry) (a : App) : App :=
  { a with processes := List.foldl (fun r p => r ++ [p]) [] snapshot }

/-- `App::kill`: `processes[state.selected().unwrap()]` (panics on `None`
selection or an out-of-range index), then looks the pid up in a fresh
`System` (`s.process(pid).unwrap()` panics when absent), sends the kill
signal (an external effect, not modelled), and finally
`refetch_process()` — which builds yet another fresh `System`, hence the
second snapshot argument. -/
def App.kill (sysSnap refetchSnap : List Entry) (a : App) : Option App :=
  match a.state with
  | none => none
  | some i =>
    match a.processes.get? i with
    | none => none
    | some p =>
      match sysSnap.find? (fun e => e.1 == p.1) with
      | none => none
      | some _ => some (App.refetch_process refetchSnap a)

/-- `App::enter_input_mode`. -/
def App.enter_input_mode (a : App) : App :=
  { a with input_mode := InputMode.EDITING }

/-- `App::exit_input_mode`. -/
def App.exit_input_mode (a : App) : App :=
  { a with input_mode := InputMode.NORMAL }

/-- `App::search`: refetches, returns early when the buffer is empty,
otherwise keeps exactly the entries whose name is contained in the buffer
or whose name contains the buffer
(`search_input.contains(name) || name.contains(&search_input)`). -/
def App.search (snapshot : List Entry) (a : App) : App :=
  let b := App.refetch_process snapshot a
  if b.search_input = "" then b
  else
    { b with
        processes :=
          List.foldl
            (fun r p =>
              if strContains b.search_input p.2 || strContains p.2 b.search_input
              then r ++ [p] else r)
            [] b.processes }

/-! ### Helper lemmas -/

/-- The push loop `for p in xs { v.push(p) }` appends `xs` to `v`. -/
theorem foldl_push (l acc : List Entry) :
    List.foldl (fun r p => r ++ [p]) acc l = acc ++ l := by
  induction l generalizing acc with
  | nil => simp
  | cons p tl ih => rw [List.foldl_cons, ih]; simp

/-- The conditional push loop of `App::search` computes `List.filter`. -/
theorem foldl_push_filter (P : Entry → Bool) (l acc : List Entry) :
    List.foldl (fun r p => if P p then r ++ [p] else r) acc l
      = acc ++ l.filter P := by
  induction l generalizing acc with
  | nil => simp
  | cons p tl ih =>
    by_cases h : P p = true
    · simp [List.foldl_cons, h, ih, List.filter_cons, List.append_assoc]
    · simp [List.foldl_cons, h, ih, List.filter_cons]

/-- Lexicographic `<` on char lists is asymmetric. -/
theorem strLtB_asymm (s t : List Char) (h : strLtB s t = true) :
    strLtB t s = false := by
  induction s generalizing t with
  | nil =>
    cases t with
    | nil => simp [strLtB] at h
    | cons b bs => simp [strLtB]
  | cons a as ih =>
    cases t with
    | nil => simp [strLtB] at h
    | cons b bs =>
      by_cases h1 : a < b
      · have h2 : ¬ b < a := asymm h1
        simp [strLtB, h1, h2]
      · by_cases h2 : b < a
        · simp [strLtB, h1, h2] at h
        · simp only [strLtB, if_neg h1, if_neg h2] at h
          simp [strLtB, h1, h2, ih bs h]

/-- Co-transitivity: when `s < u`, any `t` satisfies `s < t` or `t < u`. -/
theorem strLtB_cotrans (s u : List Char) (h : strLtB s u = true) :
    ∀ t, strLtB s t = true ∨ strLtB t u = true := by
  induction s generalizing u with
  | nil =>
    cases u with
    | nil => simp [strLtB] at h
    | cons q qs =>
      intro t
      cases t with
      | nil => right; simp [strLtB]
      | cons r rs => left; simp [strLtB]
  | cons p ps ih =>
    cases u with
    | nil => simp [strLtB] at h
    | cons q qs =>
      intro t
      cases t with
      | nil => right; simp [strLtB]
      | cons r rs =>
        by_cases hpr : p < r
        · left; simp [strLtB, hpr]
        · by_cases hrq : r < q
          · right; simp [strLtB, hrq]
          · by_cases hpq : p < q
            · exact absurd
                (lt_of_le_of_lt (le_trans (le_of_not_lt hrq) (le_of_not_lt hpr)) hpq)
                (lt_irrefl q)
            · by_cases hqp : q < p
              · simp [strLtB, hpq, hqp] at h
              · have hpq2 : p ≤ q := le_of_not_lt hqp
                have hrp2 : r ≤ p := le_of_not_lt hpr
                have hqr2 : q ≤ r := le_of_not_lt hrq
                have hrp : ¬ r < p := not_lt.mpr (le_trans hpq2 hqr2)
                have hqr : ¬ q < r := not_lt.mpr (le_trans hrp2 hpq2)
                simp only [strLtB, if_neg hpq, if_neg hqp] at h
                rcases ih qs h rs with h5 | h5
                · left; simp [strLtB, hpr, hrp, h5]
                · right; simp [strLtB, hrq, hqr, h5]

/-- Connectedness: two char lists with neither `<` the other are equal. -/
theorem strLtB_conn (s t : List Char) (h1 : strLtB s t = false)
    (h2 : strLtB t s = false) : s = t := by
  induction s generalizing t with
  | nil =>
    cases t with
    | nil => rfl
    | cons b bs => simp [strLtB] at h1
  | cons a as ih =>
    cases t with
    | nil => simp [strLtB] at h2
    | cons b bs =>
      by_cases hab : a < b
      · simp [strLtB, hab] at h1
      · by_cases hba : b < a
        · simp [strLtB, hba] at h2
        · have hab2 : a = b := le_antisymm (le_of_not_lt hba) (le_of_not_lt hab)
          simp only [strLtB, if_neg hab, if_neg hba] at h1 h2
          rw [hab2, ih bs h1 h2]

/-- The non-strict order is total. -/
theorem strLeB_total (s t : List Char) :
    strLeB s t = true ∨ strLeB t s = true := by
  by_cases h : strLtB t s = true
  · right
    simp [strLeB, strLtB_asymm t s h]
  · left
    have h2 : strLtB t s = false := by
      cases hx : strLtB t s
      · rfl
      · exact absurd hx h
    simp [strLeB, h2]

/-- The non-strict order is transitive. -/
theorem strLeB_trans (s t u : List Char) (h1 : strLeB s t = true)
    (h2 : strLeB t u = true) : strLeB s u = true := by
  simp only [strLeB, Bool.not_eq_true'] at h1 h2 ⊢
  by_contra hc
  have hc2 : strLtB u s = true := by
    cases hx : strLtB u s
    · exact absurd hx hc
    · rfl
  rcases strLtB_cotrans u s hc2 t with h3 | h3
  · rw [h2] at h3; exact Bool.false_ne_true h3
  · rw [h1] at h3; exact Bool.false_ne_true h3

/-- If `t` is not below `s` and the two differ, `s` is strictly below `t`. -/
theorem strLtB_of_not_lt_of_ne (s t : List Char) (h : strLtB t s = false)
    (hne : s ≠ t) : strLtB s t = true := by
  cases hx : strLtB s t
  · exact absurd (strLtB_conn s t hx h) hne
  · rfl

instance : IsTotal Entry nameLe :=
  ⟨fun a b => strLeB_total a.2.data b.2.data⟩

instance : IsTrans Entry nameLe :=
  ⟨fun _ _ _ h1 h2 => strLeB_trans _ _ _ h1 h2⟩

instance : IsTotal Entry nameGe :=
  ⟨fun a b => strLeB_total b.2.data a.2.data⟩

instance : IsTrans Entry nameGe :=
  ⟨fun a b c h1 h2 => strLeB_trans c.2.data b.2.data a.2.data h2 h1⟩

/-- `strStartsAux` decides the prefix relation. -/
theorem strStartsAux_iff (p s : List Char) :
    strStartsAux p s = true ↔ p <+: s := by
  induction p generalizing s with
  | nil => simp [ strStartsAux, List.nil_prefix]
  | cons a pa ih =>
    cases s with
    | nil => simp [ strStartsAux, List.prefix_nil]
    | cons b sb => simp [ strStartsAux, List.cons_prefix_cons, ih]

/-- `strFindAux` decides the contiguous-substring (infix) relation. -/
theorem strFindAux_iff (p s : List Char) :
    strFindAux p s = true ↔ p <:+: s := by
  induction s with
  | nil => simp [ strFindAux, List.isEmpty_iff, List.infix_nil]
  | cons c tl ih =>
    simp [ strFindAux, Bool.or_eq_true, strStartsAux_iff, ih, List.infix_cons_iff]

/-- `strContains hay pat` decides "`pat` is a substring of `hay`". -/
theorem strContains_iff (hay pat : String) :
    strContains hay pat = true ↔ pat.data <:+: hay.data :=
  strFindAux_iff pat.data hay.data

/-! ### Claim theorems -/

/-- Claim C1, counterexample: with `sort_by_name_option = ASC`, a refresh
keeps the raw snapshot order — the resulting entries are not sorted
ascending by name, contradicting "refresh applies the current sortMode". -/
theorem c1_counterexample :
    (App.refetch_process [(1, "b"), (2, "a")]
        (App.mk none [] SortByNameOptions.ASC "" InputMode.NORMAL)).processes
      = [(1, "b"), (2, "a")]
    ∧ (App.mk none [] SortByNameOptions.ASC "" InputMode.NORMAL).sort_by_name_option
        = SortByNameOptions.ASC
    ∧ ¬ List.Sorted nameLe [((1 : Pid), "b"), (2, "a")] := by
  refine ⟨rfl, rfl, ?_⟩
  decide

/-- Claim C1 as amended: `refetch_process` replaces `entries` with the
fresh snapshot, in snapshot order, for every sort mode alike — the current
`sortMode` is not re-applied.  In particular an empty snapshot raises no
error, `entries` simply becomes empty. -/
theorem c1_refetch_replaces (snapshot : List Entry) (a : App) :
    (App.refetch_process snapshot a).processes = snapshot := by
  simp [App.refetch_process, foldl_push]

/-- Claim C2: evaluating `kill` at states with no selection, with an
out-of-range selection, and with an empty list — the source panics
(modelled `none`) in each case instead of being a no-op. -/
theorem c2_kill_panics_without_selection :
    App.kill [(1, "a")] [(1, "a")]
        (App.mk none [(1, "a")] SortByNameOptions.NONE "" InputMode.NORMAL) = none
    ∧ App.kill [(1, "a")] [(1, "a")]
        (App.mk (some 5) [(1, "a")] SortByNameOptions.NONE "" InputMode.NORMAL) = none
    ∧ App.kill [] []
        (App.mk (some 0) [] SortByNameOptions.NONE "" InputMode.NORMAL) = none :=
  ⟨rfl, rfl, rfl⟩

/-- Claim C3: when the selected pid is no longer present in the fresh
snapshot, `kill` panics (`s.process(pid).unwrap()`, modelled `none`) rather
than signalling a recoverable `NotFound`; when the pid is present, it sends
the termination request and then refetches. -/
theorem c3_kill_panics_when_pid_missing :
    App.kill [(2, "b")] [(2, "b")]
        (App.mk (some 0) [(5, "x")] SortByNameOptions.NONE "" InputMode.NORMAL) = none
    ∧ App.kill [(5, "x"), (2, "b")] [(2, "b")]
        (App.mk (some 0) [(5, "x")] SortByNameOptions.NONE "" InputMode.NORMAL)
      = some (App.refetch_process [(2, "b")]
          (App.mk (some 0) [(5, "x")] SortByNameOptions.NONE "" InputMode.NORMAL)) :=
  ⟨rfl, rfl⟩

/-- The entries produced by `App::search`: the fresh snapshot itself on an
empty buffer, and the substring-filtered snapshot otherwise. -/
theorem search_processes (snapshot : List Entry) (a : App) :
    (App.search snapshot a).processes =
      if a.search_input = "" then snapshot
      else snapshot.filter
        (fun p => strContains a.search_input p.2 || strContains p.2 a.search_input) := by
  unfold App.search App.refetch_process
  by_cases h : a.search_input = ""
  · simp [h, foldl_push]
  · simp only [if_neg h]
    rw [foldl_push, foldl_push_filter]
    simp [h]

/-- Claim C4 (confirmed): `search` first refetches, then an entry survives
iff it lies in the fresh snapshot and (the buffer is empty, or the buffer
is a substring of its name, or its name is a substring of the buffer);
with an empty buffer the whole refreshed list is kept. -/
theorem c4_search_filter (snapshot : List Entry) (a : App) (e : Entry) :
    e ∈ (App.search snapshot a).processes ↔
      e ∈ snapshot ∧
        (a.search_input = ""
          ∨ a.search_input.data <:+: e.2.data
          ∨ e.2.data <:+: a.search_input.data) := by
  rw [search_processes]
  by_cases h : a.search_input = ""
  · simp [h]
  · simp [h, List.mem_filter, Bool.or_eq_true, strContains_iff]
    tauto

/-- Claim C10 (confirmed): `refetch_process` changes only the entries
list; sort mode, search buffer, input mode and selection are untouched. -/
theorem c10_refetch_frame (snapshot : List Entry) (a : App) :
    (App.refetch_process snapshot a).sort_by_name_option = a.sort_by_name_option
    ∧ (App.refetch_process snapshot a).search_input = a.search_input
    ∧ (App.refetch_process snapshot a).input_mode = a.input_mode
    ∧ (App.refetch_process snapshot a).state = a.state :=
  ⟨rfl, rfl, rfl, rfl⟩

/-- Claim C6, counterexample: on a one-element list with selection 0 we
have `i + 1 = len`, so the claim prescribes a wrap to 0; the code instead
selects 1, one past the end. -/
theorem c6_counterexample :
    (App.mk (some 0) [(1, "a")] SortByNameOptions.NONE "" InputMode.NORMAL).state = some 0
    ∧ (App.mk (some 0) [(1, "a")] SortByNameOptions.NONE "" InputMode.NORMAL).processes.length = 0 + 1
    ∧ (App.next (App.mk (some 0) [(1, "a")] SortByNameOptions.NONE "" InputMode.NORMAL)).state ≠ some 0
    ∧ (App.next (App.mk (some 0) [(1, "a")] SortByNameOptions.NONE "" InputMode.NORMAL)).state = some 1 := by
  refine ⟨rfl, rfl, ?_, rfl⟩
  decide

/-- Claim C6 as amended: `next()` with no selection selects 0; with
selection `i` it selects `i + 1`, wrapping to 0 exactly when `i` is at
least `len(entries)` — from the last valid index it therefore advances to
`len`, one past the end, and only wraps on the following call. -/
theorem c6_next_behaviour (a : App) :
    (a.state = none → (App.next a).state = some 0)
    ∧ ∀ i, a.state = some i →
        (((App.next a).state = some 0 ↔ a.processes.length ≤ i)
          ∧ (i < a.processes.length → (App.next a).state = some (i + 1))) := by
  constructor
  · intro h
    simp [App.next, h]
  · intro i h
    constructor
    · by_cases hle : a.processes.length ≤ i
      · simp [App.next, h, hle]
      · simp [App.next, h, hle]
    · intro hlt
      have hle : ¬ a.processes.length ≤ i := not_le.mpr hlt
      simp [App.next, h, hle]

/-- Witness for the amended C6, at a concrete in-range selection. -/
theorem c6_witness :
    (App.next (App.mk (some 0) [(1, "a"), (2, "b")]
        SortByNameOptions.NONE "" InputMode.NORMAL)).state = some 1 :=
  ((c6_next_behaviour _).2 0 rfl).2 (by decide)

/-- Claim C7, counterexample: nonempty entries with a valid selection at
the last index; after `next()` the selection is `some 1` with `len = 1`,
neither `None` nor inside `[0, len)`. -/
theorem c7_counterexample :
    (App.mk (some 0) [(1, "a")] SortByNameOptions.NONE "" InputMode.NORMAL).processes ≠ []
    ∧ (App.next (App.mk (some 0) [(1, "a")] SortByNameOptions.NONE "" InputMode.NORMAL)).state = some 1
    ∧ (App.next (App.mk (some 0) [(1, "a")] SortByNameOptions.NONE "" InputMode.NORMAL)).processes.length = 1
    ∧ ¬ (1 : Nat) < 1 := by
  refine ⟨?_, rfl, rfl, by decide⟩
  decide

/-- Claim C7 as amended: for nonempty entries and a selection that is
`None` or in range, `prev()` lands in `[0, len)`, while `next()` lands in
`[0, len]` — the value `len` itself (one past the end) is reached exactly
from the last valid index, and the following `next()` wraps to 0. -/
theorem c7_cursor_bounds (a : App) (hne : a.processes ≠ [])
    (hsel : ∀ i, a.state = some i → i < a.processes.length) :
    (∃ j, (App.next a).state = some j ∧ j ≤ a.processes.length)
    ∧ (∃ a2 j, App.prev a = some a2 ∧ a2.state = some j
        ∧ j < a.processes.length) := by
  have hpos : 0 < a.processes.length := List.length_pos.mpr hne
  constructor
  · rcases h : a.state with _ | i
    · exact ⟨0, by simp [App.next, h], Nat.zero_le _⟩
    · have hi := hsel i h
      have hle : ¬ a.processes.length ≤ i := not_le.mpr hi
      exact ⟨i + 1, by simp [App.next, h, hle], hi⟩
  · rcases h : a.state with _ | i
    · exact ⟨{ a with state := some 0 }, 0, by simp [App.prev, h], rfl, hpos⟩
    · cases i with
      | zero =>
        cases hL : a.processes.length with
        | zero => exact (Nat.lt_irrefl 0 (hL ▸ hpos)).elim
        | succ n =>
          refine ⟨{ a with state := some n }, n, ?_, rfl, ?_⟩
          · simp [App.prev, h, hL]
          · omega
      | succ m =>
        refine ⟨{ a with state := some m }, m, ?_, rfl, ?_⟩
        · simp [App.prev, h]
        · have := hsel (m + 1) h
          omega

/-- Witness for the amended C7, at a concrete nonempty state. -/
theorem c7_witness :
    (∃ j, (App.next (App.mk none [(1, "a")] SortByNameOptions.NONE "" InputMode.NORMAL)).state = some j
        ∧ j ≤ (App.mk none [(1, "a")] SortByNameOptions.NONE "" InputMode.NORMAL).processes.length)
    ∧ (∃ a2 j, App.prev (App.mk none [(1, "a")] SortByNameOptions.NONE "" InputMode.NORMAL) = some a2
        ∧ a2.state = some j
        ∧ j < (App.mk none [(1, "a")] SortByNameOptions.NONE "" InputMode.NORMAL).processes.length) :=
  c7_cursor_bounds _ (by decide) (fun _ h => nomatch h)

/-- Claim C8, counterexample: `prev()` on an empty list with no selection
selects index 0 instead of keeping `None`; with selection 0 the `len - 1`
underflows on `usize` and panics in debug builds (modelled `none`). -/
theorem c8_counterexample :
    Option.map App.state
        (App.prev (App.mk none [] SortByNameOptions.NONE "" InputMode.NORMAL))
      = some (some 0)
    ∧ some (some 0) ≠ (some (none : Option Nat) : Option (Option Nat))
    ∧ App.prev (App.mk (some 0) [] SortByNameOptions.NONE "" InputMode.NORMAL) = none :=
  ⟨rfl, by decide, rfl⟩

/-- Claim C8 as amended: `prev()` does not special-case the empty list.
On an empty list, with no selection it selects index 0 (out of range);
with selection 0 it computes `0 - 1` on `usize`, a panic in debug builds;
with a stale selection `i + 1` it selects `i`.  It never keeps `None`. -/
theorem c8_prev_empty (a : App) (h : a.processes = []) :
    (a.state = none → App.prev a = some { a with state := some 0 })
    ∧ (a.state = some 0 → App.prev a = none)
    ∧ (∀ i, a.state = some (i + 1) → App.prev a = some { a with state := some i }) := by
  refine ⟨?_, ?_, ?_⟩
  · intro hs; simp [App.prev, hs]
  · intro hs; simp [App.prev, hs, h]
  · intro i hs; simp [App.prev, hs]

/-- Witness for the amended C8, on the concrete empty state. -/
theorem c8_witness :
    App.prev (App.mk none [] SortByNameOptions.NONE "" InputMode.NORMAL)
      = some { App.mk none [] SortByNameOptions.NONE "" InputMode.NORMAL with
                 state := some 0 } :=
  (c8_prev_empty _ rfl).1 rfl

/-- One `switch_sort` always lands in `{ASC, DESC}`. -/
theorem switch_sort_mode_ne_none (a : App) :
    (App.switch_sort a).sort_by_name_option ≠ SortByNameOptions.NONE := by
  cases h : a.sort_by_name_option <;> simp [App.switch_sort, h]

/-- Claim C9 (confirmed): `switch_sort` cycles the mode
`NONE → ASC → DESC → ASC → …`, and after any positive number of toggles
the mode is never `NONE` again. -/
theorem c9_sort_cycle (a : App) (n : Nat) (hn : 1 ≤ n) :
    (App.switch_sort^[n] a).sort_by_name_option ≠ SortByNameOptions.NONE
    ∧ (a.sort_by_name_option = SortByNameOptions.NONE →
        (App.switch_sort a).sort_by_name_option = SortByNameOptions.ASC)
    ∧ (a.sort_by_name_option = SortByNameOptions.ASC →
        (App.switch_sort a).sort_by_name_option = SortByNameOptions.DESC)
    ∧ (a.sort_by_name_option = SortByNameOptions.DESC →
        (App.switch_sort a).sort_by_name_option = SortByNameOptions.ASC) := by
  refine ⟨?_, ?_, ?_, ?_⟩
  · obtain ⟨m, rfl⟩ : ∃ m, n = m + 1 := ⟨n - 1, by omega⟩
    rw [Function.iterate_succ_apply']
    exact switch_sort_mode_ne_none _
  · intro h; simp [App.switch_sort, h]
  · intro h; simp [App.switch_sort, h]
  · intro h; simp [App.switch_sort, h]

/-- Witness for C9, from the initial mode with two toggles. -/
theorem c9_witness :
    (App.switch_sort^[2] (App.mk none [] SortByNameOptions.NONE "" InputMode.NORMAL)).sort_by_name_option
      ≠ SortByNameOptions.NONE
    ∧ ((App.mk none [] SortByNameOptions.NONE "" InputMode.NORMAL).sort_by_name_option = SortByNameOptions.NONE →
        (App.switch_sort (App.mk none [] SortByNameOptions.NONE "" InputMode.NORMAL)).sort_by_name_option
          = SortByNameOptions.ASC)
    ∧ ((App.mk none [] SortByNameOptions.NONE "" InputMode.NORMAL).sort_by_name_option = SortByNameOptions.ASC →
        (App.switch_sort (App.mk none [] SortByNameOptions.NONE "" InputMode.NORMAL)).sort_by_name_option
          = SortByNameOptions.DESC)
    ∧ ((App.mk none [] SortByNameOptions.NONE "" InputMode.NORMAL).sort_by_name_option = SortByNameOptions.DESC →
        (App.switch_sort (App.mk none [] SortByNameOptions.NONE "" InputMode.NORMAL)).sort_by_name_option
          = SortByNameOptions.ASC) :=
  c9_sort_cycle _ 2 (by decide)

/-- Non-strict descending name order plus distinct names is strict. -/
theorem nameGe_strict (a b : Entry) (h1 : nameGe a b) (h2 : a.2 ≠ b.2) :
    strLtB b.2.data a.2.data = true := by
  have h1f : strLtB a.2.data b.2.data = false := by
    simpa [strLeB, nameGe] using h1
  exact strLtB_of_not_lt_of_ne _ _ h1f fun hd => h2 (String.ext hd).symm

/-- Non-strict ascending name order plus distinct names is strict. -/
theorem nameLe_strict (a b : Entry) (h1 : nameLe a b) (h2 : a.2 ≠ b.2) :
    strLtB a.2.data b.2.data = true := by
  have h1f : strLtB b.2.data a.2.data = false := by
    simpa [strLeB, nameLe] using h1
  exact strLtB_of_not_lt_of_ne _ _ h1f fun hd => h2 (String.ext hd)

/-- Claim C5, counterexample: two entries share the name `"a"`.  Both
sorts are stable, so both keep the input order of the tied entries, and
the descending list is NOT the reverse of the ascending one. -/
theorem c5_counterexample :
    sortDesc [(1, "a"), (2, "a")] ≠ (sortAsc [(1, "a"), (2, "a")]).reverse := by
  decide

/-- Claim C5 as amended: `Descending` uses the separate stable comparator
`|a, b| b.1.cmp(&a.1)`, which keeps tied entries in input order exactly as
`Ascending` does (rather than reversing them); consequently the descending
list is the exact reverse of the ascending list whenever the names are
pairwise distinct, but not in general. -/
theorem c5_desc_reverse_asc_of_distinct (l : List Entry)
    (h : (l.map Prod.snd).Nodup) :
    sortDesc l = (sortAsc l).reverse := by
  have hpermD : (sortDesc l).Perm l := List.perm_insertionSort nameGe l
  have hpermA : (sortAsc l).Perm l := List.perm_insertionSort nameLe l
  have hperm : (sortDesc l).Perm ((sortAsc l).reverse) :=
    hpermD.trans (hpermA.symm.trans ((sortAsc l).reverse_perm).symm)
  haveI : IsAntisymm Entry (fun a b : Entry => strLtB b.2.data a.2.data = true) :=
    ⟨fun a b hab hba => by
      rw [strLtB_asymm _ _ hab] at hba
      exact absurd hba Bool.false_ne_true⟩
  have hndD : List.Pairwise (fun a b : Entry => a.2 ≠ b.2) (sortDesc l) := by
    have h2 : ((sortDesc l).map Prod.snd).Nodup :=
      ((hpermD.map Prod.snd).nodup_iff).mpr h
    exact List.pairwise_map.mp h2
  have hndA : List.Pairwise (fun a b : Entry => a.2 ≠ b.2) (sortAsc l) := by
    have h2 : ((sortAsc l).map Prod.snd).Nodup :=
      ((hpermA.map Prod.snd).nodup_iff).mpr h
    exact List.pairwise_map.mp h2
  have hsD : List.Sorted nameGe (sortDesc l) := List.sorted_insertionSort nameGe l
  have hsA : List.Sorted nameLe (sortAsc l) := List.sorted_insertionSort nameLe l
  have hstrictD :
      List.Pairwise (fun a b : Entry => strLtB b.2.data a.2.data = true) (sortDesc l) :=
    (List.Pairwise.and hsD hndD).imp fun hx => nameGe_strict _ _ hx.1 hx.2
  have hstrictRA :
      List.Pairwise (fun a b : Entry => strLtB b.2.data a.2.data = true)
        ((sortAsc l).reverse) := by
    rw [List.pairwise_reverse]
    exact (List.Pairwise.and hsA hndA).imp fun hx => nameLe_strict _ _ hx.1 hx.2
  exact List.eq_of_perm_of_sorted hperm hstrictD hstrictRA

/-- Witness for the amended C5, on entries with distinct names. -/
theorem c5_witness :
    sortDesc [(1, "b"), (2, "a")] = (sortAsc [(1, "b"), (2, "a")]).reverse :=
  c5_desc_reverse_asc_of_distinct _ (by decide)

end ProcessKiller
